import Mathlib

/-!
# Albert — verification of the core engine against its specification

This file shallowly embeds the core of the Albert Chrome extension
(`background/service-worker.js`, `lib/storage.js`, and the content script
`content.js` whose source is reproduced in the repository README) and proves
or refutes the spec's claims about it.

Conventions of the embedding:
* JavaScript strings are Lean `String`s; JS `a || b` on strings is `strOr`
  (only `""` is falsy among strings); `String.prototype.trim` is `jsTrim`
  (implemented over `List Char` so all definitions evaluate by `decide`).
* The live DOM is modelled twice, at the two granularities the code uses:
  a flat list of tagged nodes (`PageNode`) for the injection lifecycle, and
  an ordered tree (`Forest`/`Doc`) with CSS-selector matching for the
  selector synthesizer.
* Platform primitives (`new URL`, `JSON.parse`, `chrome.*` messaging) are
  modelled as explicit Lean functions or abstract parameters, noted at the
  definition that uses them.
-/

namespace Albert

/-! ## JS character and string primitives -/

/-- ASCII lower-case letter, `[a-z]` in a JS regex. -/
def lowerAlpha (c : Char) : Bool := 'a' ≤ c && c ≤ 'z'

/-- ASCII letter, `[a-zA-Z]` in a JS regex. -/
def asciiAlpha (c : Char) : Bool := ('a' ≤ c && c ≤ 'z') || ('A' ≤ c && c ≤ 'Z')

/-- ASCII digit, `[0-9]` in a JS regex. -/
def asciiDigit (c : Char) : Bool := '0' ≤ c && c ≤ '9'

/-- JS regex word char or dash, `[\w-]`. -/
def wordOrDash (c : Char) : Bool := asciiAlpha c || asciiDigit c || c == '_' || c == '-'

/-- Whitespace as in JS `\s` / `String.prototype.trim` (restricted to the
ASCII whitespace the code ever meets). -/
def jsWhitespace (c : Char) : Bool := c == ' ' || c == '\t' || c == '\n' || c == '\r'

/-- JS `String.prototype.trim`. -/
def jsTrim (s : String) : String :=
  (((s.toList.dropWhile jsWhitespace).reverse.dropWhile jsWhitespace).reverse).asString

/-- JS `a || b` for strings: the empty string is the only falsy string. -/
def strOr (a b : String) : String := if a == "" then b else a

/-- JS `s.substring(0, n)`. -/
def jsTake (s : String) (n : Nat) : String := (s.toList.take n).asString

/-- Longest run of consecutive ASCII digits in `cs` (accumulator form). -/
def maxDigitRunAux : List Char → Nat → Nat → Nat
  | [], cur, best => max cur best
  | c :: cs, cur, best =>
      if asciiDigit c then maxDigitRunAux cs (cur + 1) best
      else maxDigitRunAux cs 0 (max cur best)

/-- JS regex `/[0-9]{k,}/.test s`: the string contains a run of at least
`k` consecutive digits. -/
def hasDigitRun (k : Nat) (s : String) : Bool := k ≤ maxDigitRunAux s.toList 0 0

/-! ## URL normalization (`lib/storage.js` `normalizeUrl`, also duplicated
in the content script)

`new URL(url)` is a full WHATWG parser; the embedding parses the
`scheme://host/path?query#fragment` shape the extension actually meets and
fails (models the `catch`) on anything without a `scheme://host` prefix. -/

structure UrlParts where
  scheme : String
  host : String
  path : String
  query : String
deriving DecidableEq, Repr

/-- Split `scheme://rest`: accumulate chars until `:`, then require `//`. -/
def splitScheme : List Char → List Char → Option (List Char × List Char)
  | _, [] => none
  | acc, c :: rest =>
      if c == ':' then
        match rest with
        | '/' :: '/' :: r2 => some (acc.reverse, r2)
        | _ => none
      else splitScheme (c :: acc) rest

/-- Model of `new URL(url)` restricted to the fields `normalizeUrl` and
`extractHostname` read (`origin`, `pathname`, `search`, `hostname`). -/
def parseUrl (s : String) : Option UrlParts :=
  match splitScheme [] s.toList with
  | none => none
  | some (sch, rest) =>
      if sch.isEmpty || !(sch.all asciiAlpha) then none
      else
        let host := rest.takeWhile (fun c => c != '/' && c != '?' && c != '#')
        if host.isEmpty then none
        else
          let after := rest.drop host.length
          let path := after.takeWhile (fun c => c != '?' && c != '#')
          let afterPath := after.drop path.length
          let query := afterPath.takeWhile (fun c => c != '#')
          some { scheme := sch.asString
                 host := host.asString
                 path := (if path.isEmpty then ['/'] else path).asString
                 query := query.asString }

/-- Function `normalizeUrl` from `lib/storage.js` (and the content script):
`u.origin + u.pathname + u.search`, the fragment stripped; on a parse
failure the raw string is returned. -/
def normalizeUrl (url : String) : String :=
  match parseUrl url with
  | some u => u.scheme ++ "://" ++ u.host ++ u.path ++ u.query
  | none => url

/-- Function `extractHostname` from `background/service-worker.js`:
`new URL(url).hostname`, falling back to the raw string. -/
def extractHostname (url : String) : String :=
  match parseUrl url with
  | some u => (u.host.toList.takeWhile (fun c => c != ':')).asString
  | none => url

/-! ## Persisted data model (`lib/storage.js`) -/

structure ElemCode where
  js : String
  css : String
deriving DecidableEq, Repr

/-- A persisted Element record (spec §3). -/
structure Element where
  id : String
  url : String
  hostname : String
  name : String
  description : String
  code : ElemCode
  enabled : Bool
  createdAt : String
  updatedAt : String
deriving DecidableEq, Repr

/-- Function `getElementsForUrl` from `lib/storage.js`: elements whose normalized URL
matches the normalized query URL and which are enabled. -/
def getElementsForUrl (elements : List Element) (url : String) : List Element :=
  let normalized := normalizeUrl url
  elements.filter (fun el => normalizeUrl el.url == normalized && el.enabled)

/-- A conversation entry; only its presence and order matter here. -/
structure ConversationEntry where
  role : String
  content : String
  timestamp : String
deriving DecidableEq, Repr

/-- Function `addToConversation` from `lib/storage.js`, acting on one URL's history:
push the message, then keep the last 50 (`history.slice(-50)`) when the
length exceeds 50. -/
def addToConversation (history : List ConversationEntry) (message : ConversationEntry) :
    List ConversationEntry :=
  let h := history ++ [message]
  if h.length > 50 then h.drop (h.length - 50) else h

/-! ## Injection lifecycle on a flat DOM (content script
`injectElement` / `removeElement` / `autoLoadElements`)

The DOM is a list of nodes in document order; only the attributes the
engine reads or writes are modelled. -/

structure PageNode where
  albertId : Option String
  albertElement : Option String
  albertType : Option String
  content : String
deriving DecidableEq, Repr

/-- Function `removeElement` from the content script: delete every node with
`data-albert-id` equal to the id, then every node with
`data-albert-element` equal to the id. -/
def removeElement (elementId : String) (dom : List PageNode) : List PageNode :=
  ((dom.filter (fun n => n.albertId != some elementId)).filter
    (fun n => n.albertElement != some elementId))

/-- The `<style data-albert-id=… data-albert-type="css">` node appended by
`injectElement`. -/
def styleNode (element : Element) : PageNode :=
  { albertId := some element.id
    albertElement := none
    albertType := some "css"
    content := element.code.css }

/-- Function `injectElement` from the content script. JS execution is delegated to
the service worker by message (`EXECUTE_ELEMENT_JS`) and does not touch the
DOM synchronously, so only the removal and the style-tag append appear
here. The `cssOnly` flag does not change the DOM effect. -/
def injectElement (element : Element) (dom : List PageNode) : List PageNode :=
  if element.id == "" then dom
  else
    let dom := removeElement element.id dom
    if element.code.css != "" then dom ++ [styleNode element] else dom

/-- The nodes tagged with `id` (via either marker attribute). -/
def taggedWith (id : String) (dom : List PageNode) : List PageNode :=
  dom.filter (fun n => n.albertId == some id || n.albertElement == some id)

/-- The filter inside `autoLoadElements` (content script): the stored
elements whose normalized URL equals the normalized current URL and which
are enabled. Each element of this list is passed to `injectElement`. -/
def autoLoadMatching (elements : List Element) (currentUrl : String) : List Element :=
  let normalizedCurrent := normalizeUrl currentUrl
  elements.filter (fun el => normalizeUrl el.url == normalizedCurrent && el.enabled)

/-- Function `autoLoadElements`: inject every matching element into the page. -/
def autoLoadElements (elements : List Element) (currentUrl : String)
    (dom : List PageNode) : List PageNode :=
  (autoLoadMatching elements currentUrl).foldl (fun d el => injectElement el d) dom

/-! ## Selector synthesizer (content script `buildWorkingSelectors`)

The document is modelled as the `body` element with an ordered forest of
children. `Forest` is a first-order encoding of a rose-tree list
(`node a children rest`), so every recursion is structural and every
definition evaluates inside `decide`. A node's identity is its position:
the list of child indices from `body` (`[]` is `body` itself); JS `===`
on elements becomes equality of positions. -/

/-- The attributes `buildWorkingSelectors` reads. `idAttr = ""` models a
missing `id`; `role`/`testid`/`ariaLabel` as `some ""` model an attribute
present but empty (falsy in the JS guards). Tags are lower case, as
`el.tagName.toLowerCase()` produces. -/
structure ElAttrs where
  tag : String
  idAttr : String
  role : Option String
  testid : Option String
  classes : List String
  ariaLabel : Option String
deriving DecidableEq, Repr

/-- An ordered forest of DOM elements: empty, or a first element with its
attributes, its children, and the remaining siblings. -/
inductive Forest where
  | nil : Forest
  | node (attrs : ElAttrs) (children : Forest) (rest : Forest) : Forest
deriving DecidableEq, Repr

/-- A document: the `body` element's attributes and children. -/
structure Doc where
  attrs : ElAttrs
  children : Forest
deriving DecidableEq, Repr

/-- The `i`-th element of a forest (its attributes and children). -/
def Forest.get? : Forest → Nat → Option (ElAttrs × Forest)
  | .nil, _ => none
  | .node a cs _, 0 => some (a, cs)
  | .node _ _ rest, i + 1 => rest.get? i

/-- The attribute records of a forest's elements, in order. -/
def Forest.attrsList : Forest → List ElAttrs
  | .nil => []
  | .node a _ rest => a :: rest.attrsList

/-- Positions (relative to a parent whose first listed child has index
`i`) of every element of the forest, in document (pre-)order. -/
def Forest.poss : Forest → Nat → List (List Nat)
  | .nil, _ => []
  | .node _ cs rest, i => [i] :: ((cs.poss 0).map (fun p => i :: p) ++ rest.poss (i + 1))

/-- All positions of the document in document order; `[]` is `body`. -/
def positions (d : Doc) : List (List Nat) := [] :: d.children.poss 0

/-- The subtree rooted at a position. -/
def subtreeAt : Doc → List Nat → Option Doc
  | d, [] => some d
  | d, i :: ps =>
      match d.children.get? i with
      | some (a, cs) => subtreeAt ⟨a, cs⟩ ps
      | none => none

/-- The CSS selector shapes `buildWorkingSelectors` emits. A structural
path `body > t1 > t2:nth-of-type(k) > …` is `path parts` with one
`(tag, nth-of-type index?)` part per `>` step below `body`. -/
inductive Sel where
  | tagSel (t : String)
  | roleSel (v : String)
  | idSel (v : String)
  | testidSel (v : String)
  | tagClassSel (t c : String)
  | tagAriaSel (t v : String)
  | path (parts : List (String × Option Nat))
deriving DecidableEq, Repr

/-- Whether a lone element matches a non-path selector. -/
def elMatches (a : ElAttrs) : Sel → Bool
  | .tagSel t => a.tag == t
  | .roleSel v => a.role == some v
  | .idSel v => a.idAttr == v
  | .testidSel v => a.testid == some v
  | .tagClassSel t c => a.tag == t && a.classes.contains c
  | .tagAriaSel t v => a.tag == t && a.ariaLabel == some v
  | .path _ => false

/-- CSS `:nth-of-type` index of the `i`-th child: 1 + the number of earlier
siblings with the same tag. -/
def nthIndex (f : Forest) (i : Nat) : Nat :=
  match f.get? i with
  | some (a, _) => 1 + ((f.attrsList.take i).filter (fun s => s.tag == a.tag)).length
  | none => 0

/-- Whether the element at position `pos` below the current node matches a
chain of direct-child path parts. -/
def pathMatches : Doc → List Nat → List (String × Option Nat) → Bool
  | _, [], [] => true
  | d, i :: ps, (t, nth?) :: parts =>
      (match d.children.get? i with
       | some (a, cs) =>
           a.tag == t &&
           (match nth? with
            | none => true
            | some n => nthIndex d.children i == n) &&
           pathMatches ⟨a, cs⟩ ps parts
       | none => false)
  | _, _, _ => false

/-- Whether the element at `pos` matches `sel` (document-level matching,
as `document.querySelectorAll` decides it). -/
def matchesAt (d : Doc) (pos : List Nat) (sel : Sel) : Bool :=
  match sel with
  | .path parts => pathMatches d pos parts
  | s =>
      match subtreeAt d pos with
      | some t => elMatches t.attrs s
      | none => false

/-- Model of `document.querySelectorAll`: all matching positions in document order. -/
def querySelectorAll (d : Doc) (sel : Sel) : List (List Nat) :=
  (positions d).filter (fun p => matchesAt d p sel)

/-- Model of `document.querySelector`: the first match in document order. -/
def querySelector (d : Doc) (sel : Sel) : Option (List Nat) :=
  (querySelectorAll d sel).head?

/-- Function `verify(selector, expected)` from the content script:
`document.querySelector(selector) === expected`. (The JS `try`/`catch`
guards invalid selector syntax, which the `Sel` type cannot produce.) -/
def verify (d : Doc) (sel : Sel) (pos : List Nat) : Bool :=
  querySelector d sel == some pos

/-- The id heuristic `/^[a-zA-Z][\w-]{0,40}$/.test(el.id)`. -/
def stableIdShape (s : String) : Bool :=
  match s.toList with
  | [] => false
  | c :: rest => asciiAlpha c && rest.length ≤ 40 && rest.all wordOrDash

/-- The class-shape heuristic `/^[a-zA-Z][\w-]{2,30}$/.test(c)`. -/
def stableClassShape (s : String) : Bool :=
  match s.toList with
  | [] => false
  | c :: rest => asciiAlpha c && 2 ≤ rest.length && rest.length ≤ 30 && rest.all wordOrDash

/-- The hashed-class heuristic `/^[a-z]{1,3}-[a-zA-Z0-9]{4,}$/.test(c)`:
1–3 lower-case letters, a dash, then at least 4 alphanumerics to the end. -/
def hashedClassShape (s : String) : Bool :=
  [1, 2, 3].any (fun n =>
    let cs := s.toList
    decide (n < cs.length) && (cs.take n).all lowerAlpha &&
    cs.get? n == some '-' &&
    (let rest := cs.drop (n + 1)
     decide (4 ≤ rest.length) && rest.all (fun c => asciiAlpha c || asciiDigit c)))

/-- The full class filter from `buildWorkingSelectors` step 5. -/
def stableClassTest (c : String) : Bool :=
  stableClassShape c && !(hasDigitRun 3 c) && !(hashedClassShape c)

/-- Helper for `buildStructuralPath`: its per-level work: walking down the given path,
emit for each step the child's tag, with its `:nth-of-type` index when the
parent has more than one child of that tag (`siblings.length === 1` emits
the bare tag). Returns `none` on an invalid path. -/
def partsAlong : Doc → List Nat → Option (List (String × Option Nat))
  | _, [] => some []
  | d, i :: ps =>
      match d.children.get? i with
      | none => none
      | some (a, cs) =>
          let same := (d.children.attrsList.filter (fun s => s.tag == a.tag)).length
          let part := if same == 1 then (a.tag, (none : Option Nat))
                      else (a.tag, some (nthIndex d.children i))
          match partsAlong ⟨a, cs⟩ ps with
          | some rest => some (part :: rest)
          | none => none

/-- Function `buildStructuralPath` from the content script: walk up from the target
for at most 4 levels or until `body`, building tag/`:nth-of-type` parts;
`null` when no part was produced (the target is `body`). The walk keeps
only the last `min 4` levels, exactly as the `depth < 4` loop bound does. -/
def buildStructuralPath (d : Doc) (pos : List Nat) : Option Sel :=
  match partsAlong d pos with
  | none => none
  | some parts =>
      if parts.isEmpty then none
      else some (.path (parts.drop (parts.length - min parts.length 4)))

/-- The semantic-tag list of `buildWorkingSelectors` step 1. -/
def semanticTags : List String :=
  ["main", "nav", "header", "footer", "aside", "article", "section"]

/-- Step 1: a semantic tag, if unique on the page. -/
def selTagBranch (d : Doc) (a : ElAttrs) : List Sel :=
  if semanticTags.contains a.tag && (querySelectorAll d (.tagSel a.tag)).length == 1
  then [.tagSel a.tag] else []

/-- Step 2: an ARIA `role`, if verified. -/
def selRoleBranch (d : Doc) (pos : List Nat) (a : ElAttrs) : List Sel :=
  match a.role with
  | some r =>
      if r != "" && verify d (.roleSel r) pos then [.roleSel r] else []
  | none => []

/-- Step 3: a stable-looking id — pushed without verification. -/
def selIdBranch (a : ElAttrs) : List Sel :=
  if a.idAttr != "" && stableIdShape a.idAttr && !(hasDigitRun 4 a.idAttr)
  then [.idSel a.idAttr] else []

/-- Step 4: a `data-testid` — pushed without verification. -/
def selTestidBranch (a : ElAttrs) : List Sel :=
  match a.testid with
  | some t => if t != "" then [.testidSel t] else []
  | none => []

/-- Step 5: tag + first stable class, if verified. -/
def selClassBranch (d : Doc) (pos : List Nat) (a : ElAttrs) : List Sel :=
  match (a.classes.filter stableClassTest).head? with
  | some c =>
      if verify d (.tagClassSel a.tag c) pos then [.tagClassSel a.tag c] else []
  | none => []

/-- Step 6: tag + `aria-label` (shorter than 60 chars), if verified. -/
def selAriaBranch (d : Doc) (pos : List Nat) (a : ElAttrs) : List Sel :=
  match a.ariaLabel with
  | some l =>
      if l != "" && l.length < 60 && verify d (.tagAriaSel a.tag l) pos
      then [.tagAriaSel a.tag l] else []
  | none => []

/-- Step 7: the structural path, if verified. -/
def selPathBranch (d : Doc) (pos : List Nat) : List Sel :=
  match buildStructuralPath d pos with
  | some sel => if verify d sel pos then [sel] else []
  | none => []

/-- Function `buildWorkingSelectors(el)` from the content script, for the element at
`pos`: the seven candidate branches in source order. -/
def buildWorkingSelectors (d : Doc) (pos : List Nat) : List Sel :=
  match subtreeAt d pos with
  | none => []
  | some t =>
      let a := t.attrs
      selTagBranch d a ++ selRoleBranch d pos a ++ selIdBranch a ++
      selTestidBranch a ++ selClassBranch d pos a ++ selAriaBranch d pos a ++
      selPathBranch d pos

/-! ## Verified-retry injection engine
(`background/service-worker.js` `executeElementJS`)

The injected closure is an event-driven state machine: a pending backoff
timer and a MutationObserver drive repeated `execute()` attempts until
success, or until `MAX_RETRIES` is exhausted. The embedding makes the
closure's variables a state record and the async callbacks a step
function over an arbitrary event trace. Ghost fields `retries` (number of
retry executions performed) and `scheduled` (the `(attempt, delay)` pair
of every `setTimeout` call) record what the claims count. -/

/-- Constant `MAX_RETRIES` in `executeElementJS`. -/
def MAX_RETRIES : Nat := 10

/-- Constant `BASE_DELAY` (ms). -/
def BASE_DELAY : Nat := 300

/-- Constant `MAX_DELAY` (ms). -/
def MAX_DELAY : Nat := 3000

/-- The backoff delay `Math.min(BASE_DELAY * Math.pow(2, attempt - 1), MAX_DELAY)`. -/
def retryDelay (attempt : Nat) : Nat := min (BASE_DELAY * 2 ^ (attempt - 1)) MAX_DELAY

/-- Function `wasElementCreated()` from `executeElementJS`: with no inferable
marker, assume success; otherwise require an element bearing the expected
`data-albert-element` value (`markers` are the marker values present in
the DOM after the run). -/
def wasElementCreated (expected : Option String) (markers : List String) : Bool :=
  match expected with
  | none => true
  | some m => markers.contains m

/-- The success criterion of one `execute()` call: the generated code ran
without throwing, and `wasElementCreated` holds afterwards. -/
def executeSucceeds (threw : Bool) (expected : Option String) (markers : List String) : Bool :=
  if threw then false else wasElementCreated expected markers

/-- The closure's mutable state, plus ghost accounting. -/
structure RetryState where
  attempt : Nat
  settled : Bool
  observer : Bool
  timer : Bool
  retries : Nat
  scheduled : List (Nat × Nat)
deriving DecidableEq, Repr

/-- Function `cleanup()`: disconnect the observer and clear the timer. -/
def retryCleanup (s : RetryState) : RetryState :=
  { s with settled := true, observer := false, timer := false }

/-- Function `scheduleRetry()`: bump `attempt`; give up (cleanup) past
`MAX_RETRIES`, else arm the timer with the backoff delay. -/
def scheduleRetry (s : RetryState) : RetryState :=
  if s.settled then s
  else
    let a := s.attempt + 1
    if a > MAX_RETRIES then retryCleanup { s with attempt := a }
    else { s with attempt := a, timer := true,
                  scheduled := s.scheduled ++ [(a, retryDelay a)] }

/-- One `execute()` call inside a callback: on success `cleanup()` runs
inside `execute` itself; the Bool reports success. -/
def retryExecute (ok : Bool) (s : RetryState) : Bool × RetryState :=
  if ok then (true, retryCleanup s) else (false, s)

/-- The async events that can reach the closure: the backoff timer firing,
or the (debounced) MutationObserver callback. Each carries the outcome of
the `execute()` call it performs. -/
inductive RetryEvent where
  | timerFire (ok : Bool)
  | mutationFire (ok : Bool)
deriving DecidableEq, Repr

/-- One event step of the retry machine, from the source callbacks:
* timer: fires only while armed; consumed on firing; `if (settled) return;
  if (execute()) return; scheduleRetry();`
* mutation: fires only while the observer is connected;
  `if (settled) return; clearTimeout(timeoutId); if (execute()) return;
  scheduleRetry();` -/
def retryStep (s : RetryState) : RetryEvent → RetryState
  | .timerFire ok =>
      if !s.timer then s
      else
        let s1 := { s with timer := false }
        if s1.settled then s1
        else
          let s2 := { s1 with retries := s1.retries + 1 }
          match retryExecute ok s2 with
          | (true, s3) => s3
          | (false, s3) => scheduleRetry s3
  | .mutationFire ok =>
      if !s.observer then s
      else if s.settled then s
      else
        let s1 := { s with timer := false }
        let s2 := { s1 with retries := s1.retries + 1 }
        match retryExecute ok s2 with
        | (true, s3) => s3
        | (false, s3) => scheduleRetry s3

/-- The synchronous tail of `executeElementJS`: the immediate first
`execute()`; on failure, connect the MutationObserver and call
`scheduleRetry()` as the timer backstop. -/
def retryInit (initialOk : Bool) : RetryState :=
  let s0 : RetryState :=
    { attempt := 0, settled := false, observer := false, timer := false,
      retries := 0, scheduled := [] }
  if initialOk then retryCleanup s0
  else scheduleRetry { s0 with observer := true }

/-- The machine run on an arbitrary trace of async events. -/
def retryRun (initialOk : Bool) (events : List RetryEvent) : RetryState :=
  events.foldl retryStep (retryInit initialOk)

/-! ## LLM response parsing (`background/service-worker.js`
`parseLLMResponse`, and the `catch` fallback in `handleChat` step 8) -/

/-- A JSON value, as `JSON.parse` produces (numbers restricted to the
integers; the code never computes with them). -/
inductive JValue where
  | null : JValue
  | bool (b : Bool) : JValue
  | num (n : Int) : JValue
  | str (s : String) : JValue
  | arr (xs : List JValue) : JValue
  | obj (fields : List (String × JValue)) : JValue

/-- JS truthiness of a JSON value. -/
def JValue.truthy : JValue → Bool
  | .null => false
  | .bool b => b
  | .num n => n != 0
  | .str s => s != ""
  | .arr _ => true
  | .obj _ => true

/-- JS `String(v)` on a JSON value. -/
def JValue.jsString : JValue → String
  | .null => "null"
  | .bool true => "true"
  | .bool false => "false"
  | .num n => toString n
  | .str s => s
  | .arr xs => String.intercalate "," (xs.attach.map (fun x => x.1.jsString))
  | .obj _ => "[object Object]"
decreasing_by
  simp_wf
  have h := List.sizeOf_lt_of_mem x.2
  omega

/-- Property access `v.k`: a field of an object, else `undefined`
(modelled as `none`). -/
def JValue.getField : JValue → String → Option JValue
  | .obj fs, k => (fs.find? (fun f => f.1 == k)).map (fun f => f.2)
  | _, _ => none

/-- JS truthiness of a possibly-`undefined` value. -/
def truthyOpt : Option JValue → Bool
  | some v => v.truthy
  | none => false

/-- JS `v || d` for a possibly-`undefined` value. -/
def jsOrDefault (v : Option JValue) (d : JValue) : JValue :=
  match v with
  | some x => if x.truthy then x else d
  | none => d

/-- The `element` payload `parseLLMResponse` builds. -/
structure ParsedElement where
  name : String
  description : String
  js : String
  css : String
  elementId : Option String
deriving DecidableEq, Repr

/-- The value `parseLLMResponse` returns. -/
structure ParsedResult where
  message : String
  element : Option ParsedElement
deriving DecidableEq, Repr

/-- The leading-fence strip
`jsonStr.replace(/^```(?:json)?\s*\n?/i, '')`. -/
def stripLeadingFence (s : String) : String :=
  if s.startsWith "```" then
    let t := s.drop 3
    let t := if (jsTake t 4).toLower == "json" then t.drop 4 else t
    (t.toList.dropWhile jsWhitespace).asString
  else s

/-- The trailing-fence strip `…​.replace(/\n?```\s*$/i, '')`. -/
def stripTrailingFence (s : String) : String :=
  let t := (s.toList.reverse.dropWhile jsWhitespace).reverse.asString
  if t.endsWith "```" then
    let u := t.dropRight 3
    if u.endsWith "\n" then u.dropRight 1 else u
  else s

/-- JS `indexOf` of the opening brace over the char list. -/
def firstBraceIdx (cs : List Char) : Option Nat := cs.findIdx? (fun c => c == '{')

/-- JS `lastIndexOf` of the closing brace over the char list. -/
def lastBraceIdx (cs : List Char) : Option Nat :=
  match cs.reverse.findIdx? (fun c => c == '}') with
  | some i => some (cs.length - 1 - i)
  | none => none

/-- The fence-stripping and outermost-brace extraction of
`parseLLMResponse` (shared verbatim by `extractJSON` and the
`handleElementCodeChat` parser). -/
def extractJsonSpan (responseText : String) : String :=
  let jsonStr := jsTrim responseText
  let jsonStr := stripLeadingFence jsonStr
  let jsonStr := stripTrailingFence jsonStr
  let jsonStr := jsTrim jsonStr
  let cs := jsonStr.toList
  match firstBraceIdx cs, lastBraceIdx cs with
  | some f, some l =>
      if f < l then ((cs.drop f).take (l + 1 - f)).asString else jsonStr
  | _, _ => jsonStr

/-- Function `parseLLMResponse(responseText)`. `JSON.parse` is the platform's
parser, taken as a parameter `jsonDecode`; `none` models it throwing, and
propagates (`parseLLMResponse` itself then throws: result `none`). -/
def parseLLMResponse (jsonDecode : String → Option JValue) (responseText : String) :
    Option ParsedResult :=
  match jsonDecode (extractJsonSpan responseText) with
  | none => none
  | some parsed =>
      let message := (jsOrDefault (parsed.getField "message") (.str "")).jsString
      let elementField := parsed.getField "element"
      let elJs := elementField.bind (fun e => e.getField "js")
      let elCss := elementField.bind (fun e => e.getField "css")
      if truthyOpt elementField && (truthyOpt elJs || truthyOpt elCss) then
        let e := jsOrDefault elementField .null
        some { message := message
               element := some {
                 name := jsTake (jsOrDefault (e.getField "name")
                   (.str "Custom Element")).jsString 50
                 description := (jsOrDefault (e.getField "description") (.str "")).jsString
                 js := (jsOrDefault (e.getField "js") (.str "")).jsString
                 css := (jsOrDefault (e.getField "css") (.str "")).jsString
                 elementId :=
                   match e.getField "elementId" with
                   | some v => if v.truthy then some v.jsString else none
                   | none => none } }
      else some { message := message, element := none }

/-- Step 8 of `handleChat`: `try { parseLLMResponse } catch { parsed =
{ message: llmResponse } }` — any parse failure degrades to the raw text
as a plain message with no element payload. -/
def finalizeResponse (jsonDecode : String → Option JValue) (llmResponse : String) :
    ParsedResult :=
  match parseLLMResponse jsonDecode llmResponse with
  | some parsed => parsed
  | none => { message := llmResponse, element := none }

/-! ## `handleChat` step 9 — save and inject a returned element

The effects on the live page go through `chrome.tabs` messaging; they are
recorded as an explicit effect list. The embedding takes the happy reload
path (`chrome.tabs.reload` succeeding), as the claims concern storage and
the decision logic, not the reload fallback. -/

/-- The page-side effects `handleChat` can request. -/
inductive PageEffect where
  | removeElementMsg (id : String)
  | reloadTab
deriving DecidableEq, Repr

/-- The value `handleChat` returns to the popup (error paths aside). -/
structure ChatResult where
  message : String
  hasElement : Bool
  isElementUpdate : Bool
deriving DecidableEq, Repr

/-- The warning appended on a detected false update. -/
def falseUpdateWarning : String :=
  "\n\n⚠️ No actual code changes were detected — the returned code is identical to the existing version. Try being more specific about what you want changed."

/-- Function `updateElement(id, updates)` from `lib/storage.js`: replace the first
element with the id (found by `findIndex`), merging the updates and
stamping `updatedAt`; an absent id leaves storage unchanged. -/
def updateElementList (stored : List Element) (id : String)
    (name description : String) (code : ElemCode) (now : String) : List Element :=
  match stored with
  | [] => []
  | el :: rest =>
      if el.id == id then
        { el with name := name, description := description, code := code,
                  updatedAt := now } :: rest
      else el :: updateElementList rest id name description code now

/-- The new Element built on the create path of `handleChat` step 9. -/
def newElementOf (pe : ParsedElement) (tabUrl prompt freshId now : String) : Element :=
  { id := freshId
    url := normalizeUrl tabUrl
    hostname := extractHostname tabUrl
    name := strOr pe.name "Custom Element"
    description := strOr pe.description prompt
    code := { js := pe.js, css := pe.css }
    enabled := true
    createdAt := now
    updatedAt := "" }

/-- Steps 9–11 of `handleChat`, after the LLM response is parsed: decide
update vs. create vs. false-update no-op, and produce the new stored list,
the page effects, and the returned `ChatResult`. `existingElements` is
`getElementsForUrl(stored, tabUrl)` as fetched in step 5; `freshId` and
`now` stand for `generateId()` and `new Date().toISOString()`. -/
def applyParsedElement (parsed : ParsedResult) (stored : List Element)
    (existingElements : List Element) (tabUrl prompt freshId now : String) :
    List Element × List PageEffect × ChatResult :=
  match parsed.element with
  | none =>
      (stored, [], { message := strOr parsed.message "Done!",
                     hasElement := false, isElementUpdate := false })
  | some pe =>
      let existingElement : Option Element :=
        match pe.elementId with
        | some i => existingElements.find? (fun el => el.id == i)
        | none => none
      match existingElement with
      | some ex =>
          let newJs := strOr pe.js (strOr ex.code.js "")
          let newCss := strOr pe.css (strOr ex.code.css "")
          let oldJs := strOr ex.code.js ""
          let oldCss := strOr ex.code.css ""
          let jsChanged := jsTrim newJs != jsTrim oldJs
          let cssChanged := jsTrim newCss != jsTrim oldCss
          if !jsChanged && !cssChanged then
            let honestMessage := strOr parsed.message "" ++ falseUpdateWarning
            (stored, [], { message := honestMessage,
                           hasElement := false, isElementUpdate := false })
          else
            let stored := updateElementList stored ex.id
              (strOr pe.name ex.name) (strOr pe.description ex.description)
              { js := newJs, css := newCss } now
            (stored, [.removeElementMsg ex.id, .reloadTab],
             { message := strOr parsed.message "Done!",
               hasElement := true, isElementUpdate := true })
      | none =>
          let el := newElementOf pe tabUrl prompt freshId now
          (stored ++ [el], [.reloadTab],
           { message := strOr parsed.message "Done!",
             hasElement := true, isElementUpdate := false })

/-! ## The inspect loop (`handleChat` step 7)

Each loop round calls the LLM; `responses round` abstracts that call as
the raw content together with the `inspect` array that `extractJSON`
would recover from it (`none` when the content is not JSON or has no
`inspect` array). The fetch log records, per consumed inspect request,
the round number and the selectors fetched — the inner `for` loop sends
one `GET_DOM_FRAGMENT` per selector, unconditionally. -/

/-- Constant `MAX_INSPECT_ROUNDS` in `handleChat`. -/
def MAX_INSPECT_ROUNDS : Nat := 3

/-- The fallback response when the loop produces no final content. -/
def unableMessage : String :=
  "\x7b\"message\": \"I was unable to complete the request. Please try again.\"\x7d"

/-- The `for (round = 0; round <= MAX_INSPECT_ROUNDS; round++)` loop.
`fuel` is the number of remaining loop iterations (`MAX_INSPECT_ROUNDS + 1
- round`); the inspect field is consulted only `if (round <
MAX_INSPECT_ROUNDS)`, and only a non-empty array counts. -/
def inspectLoopGo (responses : Nat → String × Option (List String)) :
    Nat → Nat → List (Nat × List String) → Option String × List (Nat × List String)
  | 0, _, log => (none, log)
  | fuel + 1, round, log =>
      let (content, parsedInspect) := responses round
      let inspectSelectors : Option (List String) :=
        if round < MAX_INSPECT_ROUNDS then
          match parsedInspect with
          | some sels => if sels.length > 0 then some sels else none
          | none => none
        else none
      match inspectSelectors with
      | some sels => inspectLoopGo responses fuel (round + 1) (log ++ [(round, sels)])
      | none => (some content, log)

/-- Step 7 of `handleChat`: run the loop from round 0 and apply the
`if (!llmResponse)` fallback. Returns the final LLM response text and the
log of consumed inspect requests. -/
def inspectLoop (responses : Nat → String × Option (List String)) :
    String × List (Nat × List String) :=
  match inspectLoopGo responses (MAX_INSPECT_ROUNDS + 1) 0 [] with
  | (some r, log) => (r, log)
  | (none, log) => (unableMessage, log)

/-! ## Shared helper lemmas -/

/-- Membership in a conditional singleton list. -/
theorem mem_cond_singleton {α : Type} {x a : α} {c : Bool}
    (h : x ∈ (if c then [a] else [])) : c = true ∧ x = a := by
  cases c with
  | false => simp at h
  | true => simp at h; exact ⟨rfl, h⟩

/-- JS `a || ''` is `a` for strings. -/
theorem strOr_empty (a : String) : strOr a "" = a := by
  unfold strOr
  split
  · next h => exact (beq_iff_eq.mp h).symm
  · rfl

/-! ## Claim theorems -/

/-- Claim C2: an injection attempt is counted a success iff the generated
code ran without throwing and, whenever an expected `data-albert-element`
marker was inferred from the code text, that marker is present in the DOM
afterwards; with no inferable marker a non-throwing run counts as a
success, and a non-throwing run that misses an inferred marker counts as
a failure. -/
theorem executeSucceeds_iff (threw : Bool) (expected : Option String)
    (markers : List String) :
    executeSucceeds threw expected markers = true ↔
      (threw = false ∧ ∀ m, expected = some m → markers.contains m = true) := by
  cases threw <;> cases expected <;>
    simp [executeSucceeds, wasElementCreated]

/-- Claim C5: the auto-load pass injects a stored element iff its
normalized URL equals the normalized page URL and it is enabled. -/
theorem autoLoad_mem_iff (elements : List Element) (currentUrl : String)
    (e : Element) :
    e ∈ autoLoadMatching elements currentUrl ↔
      e ∈ elements ∧ normalizeUrl e.url = normalizeUrl currentUrl ∧
        e.enabled = true := by
  simp [autoLoadMatching, List.mem_filter]

/-- Claim C8: appending to a conversation log yields exactly
`min (n + 1) 50` entries, and the kept entries are a suffix of the pushed
log — the oldest entries are evicted first and the order of the kept
entries is preserved. -/
theorem addToConversation_cap (history : List ConversationEntry)
    (m : ConversationEntry) :
    (addToConversation history m).length = min (history.length + 1) 50 ∧
    addToConversation history m <:+ history ++ [m] := by
  unfold addToConversation
  by_cases h : (history ++ [m]).length > 50
  · rw [if_pos h]
    refine ⟨?_, List.drop_suffix _ _⟩
    rw [List.length_drop]
    simp at h ⊢
    omega
  · rw [if_neg h]
    refine ⟨?_, List.suffix_refl _⟩
    simp at h ⊢
    omega

/-- Claim C9: response finalization is total — for every response text,
either `parseLLMResponse` yields a structured result which is returned
as-is, or the parse fails and the result degrades to the raw text as a
plain message with no element payload; the turn is never aborted. This
holds for every behaviour of the platform JSON parser (`jsonDecode`). -/
theorem finalizeResponse_total (jsonDecode : String → Option JValue)
    (llmResponse : String) :
    (∃ parsed, parseLLMResponse jsonDecode llmResponse = some parsed ∧
       finalizeResponse jsonDecode llmResponse = parsed) ∨
    (parseLLMResponse jsonDecode llmResponse = none ∧
       finalizeResponse jsonDecode llmResponse =
         { message := llmResponse, element := none }) := by
  unfold finalizeResponse
  cases h : parseLLMResponse jsonDecode llmResponse with
  | none => exact Or.inr ⟨rfl, rfl⟩
  | some parsed => exact Or.inl ⟨parsed, rfl, rfl⟩

/-! Lemmas for claim C6 (injection idempotence). -/

/-- After `removeElement(id)` no node tagged with `id` remains. -/
theorem taggedWith_removeElement (id : String) (dom : List PageNode) :
    taggedWith id (removeElement id dom) = [] := by
  unfold taggedWith removeElement
  rw [List.filter_filter, List.filter_filter]
  apply List.filter_eq_nil_iff.mpr
  intro n _
  by_cases h1 : n.albertId = some id <;> by_cases h2 : n.albertElement = some id <;>
    simp [h1, h2]

/-- Characterization of the nodes tagged `element.id` right after an
injection: exactly the freshly appended style tag (when there is CSS),
independent of the previous DOM state. -/
theorem taggedWith_injectElement (element : Element) (dom : List PageNode)
    (h : element.id ≠ "") :
    taggedWith element.id (injectElement element dom) =
      if element.code.css ≠ "" then [styleNode element] else [] := by
  unfold injectElement
  rw [if_neg (by simpa using h)]
  by_cases hcss : element.code.css = ""
  · rw [if_neg (by simpa using hcss), if_neg (by simp [hcss])]
    exact taggedWith_removeElement _ _
  · rw [if_pos (by simpa using hcss), if_pos (by simpa using hcss)]
    unfold taggedWith
    rw [List.filter_append]
    rw [show List.filter _ (removeElement element.id dom) =
          taggedWith element.id (removeElement element.id dom) from rfl]
    rw [taggedWith_removeElement]
    simp [styleNode]

/-- Claim C6: `injectElement` is idempotent on tagged nodes — a second
injection leaves exactly the tagged nodes of the first, and (for a real
element id) that is exactly one style node when the element has CSS and
none otherwise, because every injection first removes all nodes carrying
either marker attribute with that id. -/
theorem injectElement_idempotent (element : Element) (dom : List PageNode) :
    taggedWith element.id (injectElement element (injectElement element dom)) =
      taggedWith element.id (injectElement element dom) ∧
    (element.id ≠ "" →
      taggedWith element.id (injectElement element dom) =
        if element.code.css ≠ "" then [styleNode element] else []) := by
  constructor
  · by_cases h : element.id = ""
    · unfold injectElement
      rw [if_pos (by simpa using h), if_pos (by simpa using h)]
    · rw [taggedWith_injectElement element _ h, taggedWith_injectElement element dom h]
  · intro h
    exact taggedWith_injectElement element dom h

/-- A concrete element for the C6 witness. -/
def wInjElem : Element :=
  { id := "e1", url := "https://a.com/", hostname := "a.com",
    name := "n", description := "d",
    code := { js := "", css := "body" }, enabled := true,
    createdAt := "", updatedAt := "" }

/-- A concrete DOM (one stale tagged node) for the C6 witness. -/
def wInjDom : List PageNode :=
  [{ albertId := some "e1", albertElement := none,
     albertType := some "css", content := "old" }]

/-- Witness for C6 at a concrete element and DOM, discharging the
non-empty-id hypothesis. -/
theorem injectElement_idempotent_witness :
    taggedWith wInjElem.id (injectElement wInjElem wInjDom) =
      if wInjElem.code.css ≠ "" then [styleNode wInjElem] else [] :=
  (injectElement_idempotent wInjElem wInjDom).2 (by decide)

/-- JS `a || b` trims like `b` when `a` trims like `b`. -/
theorem strOr_trim_eq (a b : String) (h : jsTrim a = jsTrim b) :
    jsTrim (strOr a b) = jsTrim b := by
  unfold strOr
  split
  · rfl
  · exact h

/-- Claim C4: when an update response targets an existing element and the
proposed `js` and `css` are each trim-identical to the stored code, the
stored list and the page are untouched, nothing is created or updated,
and the returned message is the response message with the warning caveat
appended (and no success flags). -/
theorem falseUpdate_noop
    (parsed : ParsedResult) (stored existingElements : List Element)
    (tabUrl prompt freshId now : String) (pe : ParsedElement) (i : String)
    (ex : Element)
    (hpe : parsed.element = some pe)
    (hid : pe.elementId = some i)
    (hex : existingElements.find? (fun el => el.id == i) = some ex)
    (hjs : jsTrim pe.js = jsTrim ex.code.js)
    (hcss : jsTrim pe.css = jsTrim ex.code.css) :
    applyParsedElement parsed stored existingElements tabUrl prompt freshId now =
      (stored, [],
       { message := strOr parsed.message "" ++ falseUpdateWarning,
         hasElement := false, isElementUpdate := false }) := by
  have hjs2 : jsTrim (strOr pe.js (strOr ex.code.js "")) =
      jsTrim (strOr ex.code.js "") := by
    rw [strOr_empty]
    exact strOr_trim_eq pe.js ex.code.js hjs
  have hcss2 : jsTrim (strOr pe.css (strOr ex.code.css "")) =
      jsTrim (strOr ex.code.css "") := by
    rw [strOr_empty]
    exact strOr_trim_eq pe.css ex.code.css hcss
  simp only [applyParsedElement, hpe, hid, hex]
  rw [hjs2, hcss2]
  simp

/-- A concrete parsed element for the C4 witness: same stored code up to
surrounding whitespace. -/
def wFalsePe : ParsedElement :=
  { name := "Blue Button", description := "button",
    js := " alert(1) ", css := "color:red", elementId := some "e9" }

/-- The concrete response carrying `wFalsePe`. -/
def wFalseParsed : ParsedResult :=
  { message := "I changed the color.", element := some wFalsePe }

/-- The concrete stored element the C4 witness targets. -/
def wFalseEx : Element :=
  { id := "e9", url := "https://a.com/", hostname := "a.com",
    name := "Blue Button", description := "button",
    code := { js := "alert(1)", css := "color:red" }, enabled := true,
    createdAt := "", updatedAt := "" }

/-- Witness for C4 at concrete inputs, discharging every hypothesis. -/
theorem falseUpdate_noop_witness :
    applyParsedElement wFalseParsed [wFalseEx] [wFalseEx]
        "https://a.com/" "p" "fresh" "t0" =
      ([wFalseEx], [],
       { message := strOr wFalseParsed.message "" ++ falseUpdateWarning,
         hasElement := false, isElementUpdate := false }) :=
  falseUpdate_noop wFalseParsed [wFalseEx] [wFalseEx] "https://a.com/" "p"
    "fresh" "t0" wFalsePe "e9" wFalseEx rfl rfl (by decide) (by decide)
    (by decide)

/-- Claim C10: a code payload whose `elementId` matches no stored element
that is both enabled and on the current normalized URL falls through to
the create path — a brand-new element with the fresh id, `enabled := true`
and the normalized tab URL is appended, nothing is updated, and the
result reports a creation, not an update or an error. -/
theorem staleElementId_creates (parsed : ParsedResult) (stored : List Element)
    (tabUrl prompt freshId now : String) (pe : ParsedElement) (i : String)
    (hpe : parsed.element = some pe)
    (hid : pe.elementId = some i)
    (hmiss : (getElementsForUrl stored tabUrl).find? (fun el => el.id == i) = none) :
    applyParsedElement parsed stored (getElementsForUrl stored tabUrl)
        tabUrl prompt freshId now =
      (stored ++ [newElementOf pe tabUrl prompt freshId now], [.reloadTab],
       { message := strOr parsed.message "Done!", hasElement := true,
         isElementUpdate := false }) ∧
    (newElementOf pe tabUrl prompt freshId now).id = freshId ∧
    (newElementOf pe tabUrl prompt freshId now).enabled = true ∧
    (newElementOf pe tabUrl prompt freshId now).url = normalizeUrl tabUrl := by
  refine ⟨?_, rfl, rfl, rfl⟩
  simp only [applyParsedElement, hpe, hid, hmiss]

/-- A concrete parsed element referencing a stale id for the C10 witness. -/
def wStalePe : ParsedElement :=
  { name := "Counter", description := "a counter",
    js := "count()", css := "", elementId := some "gone" }

/-- The concrete response carrying `wStalePe`. -/
def wStaleParsed : ParsedResult :=
  { message := "updated it", element := some wStalePe }

/-- A stored list whose only element with the referenced id is disabled,
so `getElementsForUrl` filters it out. -/
def wStaleStored : List Element :=
  [{ id := "gone", url := "https://a.com/", hostname := "a.com",
     name := "Old", description := "", code := { js := "j", css := "c" },
     enabled := false, createdAt := "", updatedAt := "" }]

/-- Witness for C10 at concrete inputs, discharging every hypothesis. -/
theorem staleElementId_creates_witness :
    applyParsedElement wStaleParsed wStaleStored
        (getElementsForUrl wStaleStored "https://a.com/")
        "https://a.com/" "p" "fresh1" "t1" =
      (wStaleStored ++ [newElementOf wStalePe "https://a.com/" "p" "fresh1" "t1"],
       [.reloadTab],
       { message := strOr wStaleParsed.message "Done!", hasElement := true,
         isElementUpdate := false }) :=
  (staleElementId_creates wStaleParsed wStaleStored "https://a.com/" "p"
    "fresh1" "t1" wStalePe "gone" rfl rfl (by decide)).1

/-! Lemmas and inputs for claim C7 (the inspect loop). -/

/-- A response trace whose first round requests six selectors. -/
def sixInspect : Nat → String × Option (List String) :=
  fun n =>
    if n == 0 then ("inspecting", some ["table", "#a", "#b", "#c", "#d", "#e"])
    else ("final answer", none)

/-- Counterexample to claim C7 as stated: the loop enforces no cap on the
number of selectors per inspect request — a round-0 request with six
selectors has all six fetched (the log records the selectors fetched per
consumed request). -/
theorem inspectLoop_no_five_cap :
    ¬ (∀ e ∈ (inspectLoop sixInspect).2, e.2.length ≤ 5) := by decide

/-- Invariant proof for the inspect loop: the log only grows with
consumed requests from rounds strictly below `MAX_INSPECT_ROUNDS`, each
recording exactly the selectors the LLM requested in that round. -/
theorem inspectLoopGo_spec (responses : Nat → String × Option (List String)) :
    ∀ fuel round log,
      log.length ≤ min round MAX_INSPECT_ROUNDS →
      (∀ e ∈ log, e.1 < MAX_INSPECT_ROUNDS ∧ (responses e.1).2 = some e.2 ∧
        0 < e.2.length) →
      (inspectLoopGo responses fuel round log).2.length ≤ MAX_INSPECT_ROUNDS ∧
      ∀ e ∈ (inspectLoopGo responses fuel round log).2,
        e.1 < MAX_INSPECT_ROUNDS ∧ (responses e.1).2 = some e.2 ∧
        0 < e.2.length := by
  intro fuel
  induction fuel with
  | zero =>
      intro round log h1 h2
      exact ⟨le_trans h1 (min_le_right _ _), h2⟩
  | succ n ih =>
      intro round log h1 h2
      simp only [inspectLoopGo]
      rcases hr : responses round with ⟨content, pinsp⟩
      by_cases hround : round < MAX_INSPECT_ROUNDS
      · cases pinsp with
        | none =>
            simp only [hround, if_pos, if_true]
            exact ⟨le_trans h1 (min_le_right _ _), h2⟩
        | some sels =>
            by_cases hlen : sels.length > 0
            · simp only [hround, if_true, hlen, if_pos]
              apply ih (round + 1) (log ++ [(round, sels)])
              · rw [List.length_append]
                simp only [List.length_singleton]
                unfold MAX_INSPECT_ROUNDS at *
                omega
              · intro e he
                rcases List.mem_append.mp he with h | h
                · exact h2 e h
                · rcases List.mem_singleton.mp h with rfl
                  refine ⟨hround, ?_, hlen⟩
                  rw [hr]
            · simp only [hround, if_true, hlen, if_neg]
              simp only [Nat.not_lt, Nat.le_zero] at hlen
              simp only [hlen, lt_irrefl, if_false]
              exact ⟨le_trans h1 (min_le_right _ _), h2⟩
      · simp only [hround, if_false]
        exact ⟨le_trans h1 (min_le_right _ _), h2⟩

/-- Amended claim C7: inspect requests are consumed only while inspection
rounds remain (rounds 0–2; at most 3 inspect rounds, the 4th response is
final regardless), and every consumed request has all of its selectors
fetched — the `≤ 5` limit appears in the prompt only and is not enforced
by the orchestrator. -/
theorem inspectLoop_rounds_bounded (responses : Nat → String × Option (List String)) :
    (inspectLoop responses).2.length ≤ MAX_INSPECT_ROUNDS ∧
    ∀ e ∈ (inspectLoop responses).2,
      e.1 < MAX_INSPECT_ROUNDS ∧ (responses e.1).2 = some e.2 ∧
      0 < e.2.length := by
  have h := inspectLoopGo_spec responses (MAX_INSPECT_ROUNDS + 1) 0 []
    (by simp) (by simp)
  unfold inspectLoop
  rcases hg : inspectLoopGo responses (MAX_INSPECT_ROUNDS + 1) 0 [] with ⟨r, log⟩
  rw [hg] at h
  cases r <;> simpa using h

/-- Witness for the amended C7 at the concrete six-selector trace. -/
theorem inspectLoop_rounds_bounded_witness :
    (inspectLoop sixInspect).2.length ≤ MAX_INSPECT_ROUNDS ∧
    ∀ e ∈ (inspectLoop sixInspect).2,
      e.1 < MAX_INSPECT_ROUNDS ∧ (sixInspect e.1).2 = some e.2 ∧
      0 < e.2.length :=
  inspectLoop_rounds_bounded sixInspect

/-! Lemmas for claim C3 (retry bound and resource cleanup). -/

/-- The inductive invariant of the retry machine: while unsettled the
retry count is strictly below the attempt counter which is within budget;
once settled the observer and timer are gone and at most `MAX_RETRIES`
retries ran; and the schedule log is bounded with every entry well-formed. -/
def RetryInv (s : RetryState) : Prop :=
  (s.settled = false → s.retries < s.attempt ∧ s.attempt ≤ MAX_RETRIES) ∧
  (s.settled = true → s.observer = false ∧ s.timer = false ∧
    s.retries ≤ MAX_RETRIES) ∧
  s.scheduled.length ≤ s.attempt ∧ s.scheduled.length ≤ MAX_RETRIES ∧
  (∀ p ∈ s.scheduled, 1 ≤ p.1 ∧ p.1 ≤ MAX_RETRIES ∧ p.2 = retryDelay p.1)

/-- The invariant holds after the synchronous part of `executeElementJS`. -/
theorem retryInv_init (initialOk : Bool) : RetryInv (retryInit initialOk) := by
  cases initialOk <;>
    simp [RetryInv, retryInit, retryCleanup, scheduleRetry, MAX_RETRIES]

/-- The invariant is preserved by `scheduleRetry`, from the slightly
weaker facts that hold mid-callback (the retry counter may have just
caught up with the attempt counter). -/
theorem retryInv_scheduleRetry (s : RetryState)
    (hsch1 : s.scheduled.length ≤ s.attempt)
    (hsch2 : s.scheduled.length ≤ MAX_RETRIES)
    (hsch3 : ∀ p ∈ s.scheduled, 1 ≤ p.1 ∧ p.1 ≤ MAX_RETRIES ∧ p.2 = retryDelay p.1)
    (hset : s.settled = true → s.observer = false ∧ s.timer = false ∧
      s.retries ≤ MAX_RETRIES)
    (hns : s.settled = false → s.retries ≤ s.attempt ∧ s.attempt ≤ MAX_RETRIES) :
    RetryInv (scheduleRetry s) := by
  obtain ⟨att, set, obs, tim, ret, sch⟩ := s
  simp only at hsch1 hsch2 hsch3 hset hns
  cases set with
  | true =>
      rw [scheduleRetry]
      simp only [if_true]
      exact ⟨by simp, by simpa using hset, hsch1, hsch2, hsch3⟩
  | false =>
      obtain ⟨hra, hat⟩ := hns rfl
      rw [scheduleRetry]
      simp only [Bool.false_eq_true, if_false]
      by_cases hof : att + 1 > MAX_RETRIES
      · rw [if_pos hof]
        refine ⟨by simp [retryCleanup], ?_, ?_, hsch2, ?_⟩
        · intro _
          refine ⟨rfl, rfl, ?_⟩
          simpa [retryCleanup] using le_trans hra hat
        · simp only [retryCleanup]
          omega
        · simpa [retryCleanup] using hsch3
      · rw [if_neg hof]
        refine ⟨?_, by simp, ?_, ?_, ?_⟩
        · intro _
          simp only []
          omega
        · simp only [List.length_append, List.length_singleton]
          omega
        · simp only [List.length_append, List.length_singleton]
          omega
        · intro p hp
          rcases List.mem_append.mp hp with h | h
          · exact hsch3 p h
          · rcases List.mem_singleton.mp h with rfl
            exact ⟨by omega, by omega, rfl⟩

/-- The invariant is preserved by every async event. -/
theorem retryInv_step (s : RetryState) (e : RetryEvent) (h : RetryInv s) :
    RetryInv (retryStep s e) := by
  obtain ⟨h1, h2, h3, h4, h5⟩ := h
  obtain ⟨att, set, obs, tim, ret, sch⟩ := s
  simp only at h1 h2 h3 h4 h5
  have hbody : ∀ ok : Bool, set = false →
      RetryInv (match retryExecute ok
          (RetryState.mk att set obs false (ret + 1) sch) with
        | (true, s3) => s3
        | (false, s3) => scheduleRetry s3) := by
    intro ok hs'
    subst hs'
    obtain ⟨hra, hat⟩ := h1 rfl
    cases ok with
    | true =>
        simp only [retryExecute, if_pos]
        refine ⟨by simp [retryCleanup], ?_, by simpa [retryCleanup] using h3,
          by simpa [retryCleanup] using h4, by simpa [retryCleanup] using h5⟩
        intro _
        refine ⟨rfl, rfl, ?_⟩
        simp only [retryCleanup]
        omega
    | false =>
        simp only [retryExecute, Bool.false_eq_true, if_false]
        apply retryInv_scheduleRetry
        · simpa using h3
        · simpa using h4
        · simpa using h5
        · intro hcon
          cases hcon
        · intro _
          simp only []
          omega
  cases e with
  | timerFire ok =>
      rw [retryStep]
      cases tim with
      | false =>
          simp only [Bool.not_false, if_true]
          exact ⟨h1, h2, h3, h4, h5⟩
      | true =>
          simp only [Bool.not_true, Bool.false_eq_true, if_false]
          cases set with
          | true => exact absurd (h2 rfl).2.1 (by simp)
          | false =>
              simp only [Bool.false_eq_true, if_false]
              exact hbody ok rfl
  | mutationFire ok =>
      rw [retryStep]
      cases obs with
      | false =>
          simp only [Bool.not_false, if_true]
          exact ⟨h1, h2, h3, h4, h5⟩
      | true =>
          simp only [Bool.not_true, Bool.false_eq_true, if_false]
          cases set with
          | true => exact absurd (h2 rfl).1 (by simp)
          | false =>
              simp only [Bool.false_eq_true, if_false]
              exact hbody ok rfl

/-- The invariant holds in every reachable state of the machine. -/
theorem retryInv_run (initialOk : Bool) (events : List RetryEvent) :
    RetryInv (retryRun initialOk events) := by
  unfold retryRun
  suffices h : ∀ s : RetryState, RetryInv s → RetryInv (events.foldl retryStep s) from
    h _ (retryInv_init initialOk)
  induction events with
  | nil => intro s hs; exact hs
  | cons e es ih =>
      intro s hs
      exact ih _ (retryInv_step s e hs)

/-- Claim C3: over every async schedule, the injection engine performs at
most 10 retries; every scheduled retry carries the delay
`min(300 · 2^(attempt−1), 3000)` for an attempt number in 1..10, and at
most 10 retries are ever scheduled; and whenever the machine settles — on
success or on exhaustion of the budget (`executeElementJS` offers no
external cancellation; cancellation-on-settle is subsumed) — its
MutationObserver is disconnected and its pending timer cleared. -/
theorem executeElementJS_retry_bounded (initialOk : Bool)
    (events : List RetryEvent) :
    (retryRun initialOk events).retries ≤ MAX_RETRIES ∧
    (retryRun initialOk events).scheduled.length ≤ MAX_RETRIES ∧
    (∀ p ∈ (retryRun initialOk events).scheduled,
      1 ≤ p.1 ∧ p.1 ≤ MAX_RETRIES ∧
      p.2 = min (BASE_DELAY * 2 ^ (p.1 - 1)) MAX_DELAY) ∧
    ((retryRun initialOk events).settled = true →
      (retryRun initialOk events).observer = false ∧
      (retryRun initialOk events).timer = false) := by
  obtain ⟨h1, h2, h3, h4, h5⟩ := retryInv_run initialOk events
  refine ⟨?_, h4, ?_, ?_⟩
  · by_cases hs : (retryRun initialOk events).settled = true
    · exact (h2 hs).2.2
    · have h := h1 (by simpa using hs)
      omega
  · intro p hp
    exact h5 p hp
  · intro hs
    exact ⟨(h2 hs).1, (h2 hs).2.1⟩

/-- Witness for C3 on a concrete event trace (two failed retries, then a
mutation-triggered success). -/
theorem executeElementJS_retry_bounded_witness :
    (retryRun false [.timerFire false, .timerFire false, .mutationFire true]).retries ≤
      MAX_RETRIES ∧
    (retryRun false [.timerFire false, .timerFire false, .mutationFire true]).scheduled.length ≤
      MAX_RETRIES ∧
    (∀ p ∈ (retryRun false [.timerFire false, .timerFire false, .mutationFire true]).scheduled,
      1 ≤ p.1 ∧ p.1 ≤ MAX_RETRIES ∧
      p.2 = min (BASE_DELAY * 2 ^ (p.1 - 1)) MAX_DELAY) ∧
    ((retryRun false [.timerFire false, .timerFire false, .mutationFire true]).settled = true →
      (retryRun false [.timerFire false, .timerFire false, .mutationFire true]).observer = false ∧
      (retryRun false [.timerFire false, .timerFire false, .mutationFire true]).timer = false) :=
  executeElementJS_retry_bounded false
    [.timerFire false, .timerFire false, .mutationFire true]

/-! Lemmas for claim C1 (selector synthesis). -/

/-- A valid child index with a valid tail position yields a position in
the forest's position list. -/
theorem Forest.mem_poss (f : Forest) :
    ∀ (k i : Nat) (ps : List Nat) (a : ElAttrs) (cs : Forest),
      f.get? i = some (a, cs) → (ps = [] ∨ ps ∈ cs.poss 0) →
      ((k + i) :: ps) ∈ f.poss k := by
  induction f with
  | nil =>
      intro k i ps a cs h
      cases h
  | node a0 cs0 rest ihc ihr =>
      intro k i ps a cs hg hps
      cases i with
      | zero =>
          rw [Forest.get?] at hg
          injection hg with hg
          injection hg with hg1 hg2
          subst hg1; subst hg2
          rw [Forest.poss]
          rcases hps with rfl | hps
          · simp
          · apply List.mem_cons_of_mem
            apply List.mem_append_left
            simpa using List.mem_map_of_mem (fun p => k :: p) hps
      | succ i =>
          rw [Forest.get?] at hg
          have h := ihr (k + 1) i ps a cs hg hps
          rw [Forest.poss]
          apply List.mem_cons_of_mem
          apply List.mem_append_right
          have he : k + (i + 1) = (k + 1) + i := by omega
          rw [he]
          exact h

/-- Every position with a subtree is in the document's position list. -/
theorem subtreeAt_mem_positions :
    ∀ (pos : List Nat) (d t : Doc), subtreeAt d pos = some t → pos ∈ positions d := by
  intro pos
  induction pos with
  | nil =>
      intro d t _
      simp [positions]
  | cons i ps ih =>
      intro d t h
      unfold subtreeAt at h
      cases hg : d.children.get? i with
      | none => rw [hg] at h; cases h
      | some p =>
          rw [hg] at h
          obtain ⟨a, cs⟩ := p
          have hp := ih ⟨a, cs⟩ t h
          rw [positions] at hp
          rw [positions]
          apply List.mem_cons_of_mem
          have hm := Forest.mem_poss d.children 0 i ps a cs hg ?_
          · simpa using hm
          · rcases List.mem_cons.mp hp with h1 | h1
            · exact Or.inl h1
            · exact Or.inr h1

/-- A position whose element exists matches its own tag selector. -/
theorem matchesAt_tag_self {d : Doc} {pos : List Nat} {t : Doc}
    (h : subtreeAt d pos = some t) :
    matchesAt d pos (Sel.tagSel t.attrs.tag) = true := by
  simp [matchesAt, h, elMatches]

/-- Membership introduction for `querySelectorAll`. -/
theorem mem_querySelectorAll {d : Doc} {pos : List Nat} {sel : Sel}
    (hp : pos ∈ positions d) (hm : matchesAt d pos sel = true) :
    pos ∈ querySelectorAll d sel :=
  List.mem_filter.mpr ⟨hp, hm⟩

/-- A selector with exactly one match containing `pos` resolves to `pos`. -/
theorem querySelectorAll_length_one_head {d : Doc} {sel : Sel} {pos : List Nat}
    (hlen : (querySelectorAll d sel).length = 1)
    (hmem : pos ∈ querySelectorAll d sel) :
    querySelector d sel = some pos := by
  obtain ⟨a, ha⟩ := List.length_eq_one.mp hlen
  rw [ha] at hmem
  rcases List.mem_singleton.mp hmem with rfl
  rw [querySelector, ha]
  rfl

/-- A verified selector resolves (as first match) to the target. -/
theorem verify_querySelector {d : Doc} {sel : Sel} {pos : List Nat}
    (h : verify d sel pos = true) :
    querySelector d sel = some pos := by
  unfold verify at h
  exact beq_iff_eq.mp h

/-- What membership in the semantic-tag branch gives. -/
theorem mem_selTagBranch {d : Doc} {a : ElAttrs} {sel : Sel}
    (h : sel ∈ selTagBranch d a) :
    sel = Sel.tagSel a.tag ∧ (querySelectorAll d (Sel.tagSel a.tag)).length = 1 := by
  unfold selTagBranch at h
  rcases mem_cond_singleton h with ⟨hc, rfl⟩
  refine ⟨rfl, ?_⟩
  have h2 := ((Bool.and_eq_true _ _).mp hc).2
  simpa using h2

/-- The role branch only emits verified selectors. -/
theorem mem_selRoleBranch {d : Doc} {pos : List Nat} {a : ElAttrs} {sel : Sel}
    (h : sel ∈ selRoleBranch d pos a) : verify d sel pos = true := by
  unfold selRoleBranch at h
  cases hr : a.role with
  | none => rw [hr] at h; cases h
  | some r =>
      rw [hr] at h
      rcases mem_cond_singleton h with ⟨hc, rfl⟩
      exact ((Bool.and_eq_true _ _).mp hc).2

/-- The id branch emits only id selectors (and nothing else is known of
them — they are unverified). -/
theorem mem_selIdBranch {a : ElAttrs} {sel : Sel}
    (h : sel ∈ selIdBranch a) : ∃ v, sel = Sel.idSel v := by
  unfold selIdBranch at h
  rcases mem_cond_singleton h with ⟨_, rfl⟩
  exact ⟨_, rfl⟩

/-- The testid branch emits only testid selectors (unverified). -/
theorem mem_selTestidBranch {a : ElAttrs} {sel : Sel}
    (h : sel ∈ selTestidBranch a) : ∃ v, sel = Sel.testidSel v := by
  unfold selTestidBranch at h
  cases ht : a.testid with
  | none => rw [ht] at h; cases h
  | some t =>
      rw [ht] at h
      rcases mem_cond_singleton h with ⟨_, rfl⟩
      exact ⟨_, rfl⟩

/-- The class branch only emits verified selectors. -/
theorem mem_selClassBranch {d : Doc} {pos : List Nat} {a : ElAttrs} {sel : Sel}
    (h : sel ∈ selClassBranch d pos a) : verify d sel pos = true := by
  unfold selClassBranch at h
  cases hc : (a.classes.filter stableClassTest).head? with
  | none => rw [hc] at h; cases h
  | some c =>
      rw [hc] at h
      rcases mem_cond_singleton h with ⟨hv, rfl⟩
      exact hv

/-- The aria-label branch only emits verified selectors. -/
theorem mem_selAriaBranch {d : Doc} {pos : List Nat} {a : ElAttrs} {sel : Sel}
    (h : sel ∈ selAriaBranch d pos a) : verify d sel pos = true := by
  unfold selAriaBranch at h
  cases ha : a.ariaLabel with
  | none => rw [ha] at h; cases h
  | some l =>
      rw [ha] at h
      rcases mem_cond_singleton h with ⟨hc, rfl⟩
      exact ((Bool.and_eq_true _ _).mp hc).2

/-- The structural-path branch only emits verified selectors. -/
theorem mem_selPathBranch {d : Doc} {pos : List Nat} {sel : Sel}
    (h : sel ∈ selPathBranch d pos) : verify d sel pos = true := by
  unfold selPathBranch at h
  cases hb : buildStructuralPath d pos with
  | none => rw [hb] at h; cases h
  | some s0 =>
      rw [hb] at h
      rcases mem_cond_singleton h with ⟨hv, rfl⟩
      exact hv

/-- Amended claim C1: every selector `buildWorkingSelectors` returns for
an element, other than those from the unverified id and `data-testid`
branches, resolves as the document's first `querySelector` match to
exactly that element (the semantic-tag branch additionally only fires
when the tag is unique page-wide). Selectors that also match other,
later elements are not discarded, and id/testid selectors are included
with no verification at all. -/
theorem buildWorkingSelectors_first_match (d : Doc) (pos : List Nat) (sel : Sel)
    (hm : sel ∈ buildWorkingSelectors d pos)
    (hid : ∀ v, sel ≠ Sel.idSel v) (htid : ∀ v, sel ≠ Sel.testidSel v) :
    querySelector d sel = some pos := by
  unfold buildWorkingSelectors at hm
  cases hsub : subtreeAt d pos with
  | none => rw [hsub] at hm; cases hm
  | some t =>
      rw [hsub] at hm
      simp only [List.mem_append] at hm
      rcases hm with ((((((h1 | h2) | h3) | h4) | h5) | h6) | h7)
      · obtain ⟨rfl, hlen⟩ := mem_selTagBranch h1
        have hp := subtreeAt_mem_positions pos d t hsub
        have hmt := matchesAt_tag_self hsub
        exact querySelectorAll_length_one_head hlen (mem_querySelectorAll hp hmt)
      · exact verify_querySelector (mem_selRoleBranch h2)
      · obtain ⟨v, rfl⟩ := mem_selIdBranch h3
        exact absurd rfl (hid v)
      · obtain ⟨v, rfl⟩ := mem_selTestidBranch h4
        exact absurd rfl (htid v)
      · exact verify_querySelector (mem_selClassBranch h5)
      · exact verify_querySelector (mem_selAriaBranch h6)
      · exact verify_querySelector (mem_selPathBranch h7)

/-- A bare `div` attribute record for concrete documents. -/
def blankAttrs : ElAttrs :=
  { tag := "div", idAttr := "", role := none, testid := none,
    classes := [], ariaLabel := none }

/-- A document whose two `body` children both carry `id="foo"` (duplicate
ids are legal in real-world HTML, the DOM does not enforce uniqueness). -/
def dupIdDoc : Doc :=
  { attrs := { blankAttrs with tag := "body" },
    children := .node { blankAttrs with idAttr := "foo" } .nil
      (.node { blankAttrs with idAttr := "foo" } .nil .nil) }

/-- Counterexample to claim C1 as stated: for the second `div#foo`,
`buildWorkingSelectors` includes the selector `#foo` (the id branch pushes
it with no verification), yet `#foo` matches two elements and its first
match is the other element — it does not resolve to the singleton of the
target, and it was not discarded. -/
theorem buildWorkingSelectors_unverified_id :
    Sel.idSel "foo" ∈ buildWorkingSelectors dupIdDoc [1] ∧
    querySelectorAll dupIdDoc (Sel.idSel "foo") = [[0], [1]] ∧
    querySelector dupIdDoc (Sel.idSel "foo") ≠ some [1] := by decide

/-- A document with a unique `main` landmark for the C1 witness. -/
def soloMainDoc : Doc :=
  { attrs := { blankAttrs with tag := "body" },
    children := .node { blankAttrs with tag := "main" } .nil .nil }

/-- Witness for the amended C1: the semantic-tag selector emitted for the
unique `main` element resolves to it. -/
theorem buildWorkingSelectors_first_match_witness :
    querySelector soloMainDoc (Sel.tagSel "main") = some [0] :=
  buildWorkingSelectors_first_match soloMainDoc [0] (Sel.tagSel "main")
    (by decide) (fun _ h => Sel.noConfusion h) (fun _ h => Sel.noConfusion h)

/-- Witness for C2 at a concrete attempt (non-throwing run that produced
the inferred marker). -/
theorem executeSucceeds_iff_witness :
    executeSucceeds false (some "dark-toggle") ["dark-toggle"] = true ↔
      ((false : Bool) = false ∧ ∀ m, (some "dark-toggle" : Option String) = some m →
        (["dark-toggle"].contains m) = true) :=
  executeSucceeds_iff false (some "dark-toggle") ["dark-toggle"]

/-- A concrete enabled element for the C5 witness. -/
def wAutoElem : Element :=
  { id := "e5", url := "https://a.com/page?x=1#frag", hostname := "a.com",
    name := "n", description := "d", code := { js := "", css := "c" },
    enabled := true, createdAt := "", updatedAt := "" }

/-- Witness for C5 at a concrete element list and URL (the URLs differ
only in fragment, so they normalize equal). -/
theorem autoLoad_mem_iff_witness :
    wAutoElem ∈ autoLoadMatching [wAutoElem] "https://a.com/page?x=1" ↔
      wAutoElem ∈ [wAutoElem] ∧
      normalizeUrl wAutoElem.url = normalizeUrl "https://a.com/page?x=1" ∧
      wAutoElem.enabled = true :=
  autoLoad_mem_iff [wAutoElem] "https://a.com/page?x=1" wAutoElem

/-- A concrete conversation entry for the C8 witness. -/
def wConvEntry : ConversationEntry :=
  { role := "user", content := "hi", timestamp := "t" }

/-- Witness for C8 at a concrete (already full) 50-entry log. -/
theorem addToConversation_cap_witness :
    (addToConversation (List.replicate 50 wConvEntry) wConvEntry).length =
      min ((List.replicate 50 wConvEntry).length + 1) 50 ∧
    addToConversation (List.replicate 50 wConvEntry) wConvEntry <:+
      List.replicate 50 wConvEntry ++ [wConvEntry] :=
  addToConversation_cap (List.replicate 50 wConvEntry) wConvEntry

/-- Witness for C9 at a concrete response and a JSON parser that fails on
every input (the worst case: the result is the raw-text degradation). -/
theorem finalizeResponse_total_witness :
    (∃ parsed, parseLLMResponse (fun _ => none) "plain text answer" = some parsed ∧
       finalizeResponse (fun _ => none) "plain text answer" = parsed) ∨
    (parseLLMResponse (fun _ => none) "plain text answer" = none ∧
       finalizeResponse (fun _ => none) "plain text answer" =
         { message := "plain text answer", element := none }) :=
  finalizeResponse_total (fun _ => none) "plain text answer"

end Albert
